import Mathlib

/- Verification of the Project File Server subsystem of the AiTer repository:
   the port manager (`PortManager`, src/unnamed/part_016), the server manager
   (`ProjectServerManager`, src/src/main/utils/safeRegex.ts), the IPC boundary
   (src/src/main/ipc/fileServer.ts) and the per-project local file server. -/

set_option autoImplicit false
set_option maxRecDepth 40000

/-- Association-list lookup returning the first entry whose key matches,
modelling JavaScript `Map.get` (keys of a `Map` are unique, so the first
match is the only one). -/
def assocGet {α : Type} : List (String × α) → String → Option α
  | [], _ => none
  | (k', v) :: rest, k => if k' = k then some v else assocGet rest k

/-- Association-list update modelling JavaScript `Map.set`: an existing key
keeps its position and gets the new value; a new key is appended at the end
(insertion order). -/
def assocSet {α : Type} : List (String × α) → String → α → List (String × α)
  | [], k, v => [(k, v)]
  | (k', v') :: rest, k, v =>
    if k' = k then (k, v) :: rest else (k', v') :: assocSet rest k v

/-- Association-list removal modelling JavaScript `Map.delete`: the first
entry whose key matches is dropped. -/
def assocRemove {α : Type} : List (String × α) → String → List (String × α)
  | [], _ => []
  | (k', v') :: rest, k =>
    if k' = k then rest else (k', v') :: assocRemove rest k

/-- Key-membership test for an association list, modelling `Map.has`. -/
def containsKey {α : Type} (m : List (String × α)) (k : String) : Bool :=
  (assocGet m k).isSome

theorem assocGet_set_self {α : Type} (m : List (String × α)) (k : String) (v : α) :
    assocGet (assocSet m k v) k = some v := by
  induction m with
  | nil => simp [assocSet, assocGet]
  | cons kv rest ih =>
    obtain ⟨k', v'⟩ := kv
    by_cases hk : k' = k
    · subst hk
      simp [assocSet, assocGet]
    · simp only [assocSet, if_neg hk, assocGet, if_neg hk]
      exact ih

theorem assocGet_set_other {α : Type} (m : List (String × α)) (k j : String) (v : α)
    (h : j ≠ k) : assocGet (assocSet m k v) j = assocGet m j := by
  induction m with
  | nil =>
    simp only [assocSet, assocGet, if_neg (Ne.symm h)]
  | cons kv rest ih =>
    obtain ⟨k', v'⟩ := kv
    by_cases hk : k' = k
    · subst hk
      simp only [assocSet, if_pos rfl, assocGet, if_neg (Ne.symm h)]
    · simp only [assocSet, if_neg hk, assocGet, ih]

theorem length_assocSet_mem {α : Type} (m : List (String × α)) (k : String) (v : α)
    (h : containsKey m k = true) : (assocSet m k v).length = m.length := by
  induction m with
  | nil => simp [containsKey, assocGet] at h
  | cons kv rest ih =>
    obtain ⟨k', v'⟩ := kv
    by_cases hk : k' = k
    · simp [assocSet, hk]
    · simp only [containsKey, assocGet, if_neg hk] at h
      simp only [assocSet, if_neg hk, List.length_cons, ih h]

theorem length_assocSet_not_mem {α : Type} (m : List (String × α)) (k : String) (v : α)
    (h : containsKey m k = false) : (assocSet m k v).length = m.length + 1 := by
  induction m with
  | nil => simp [assocSet]
  | cons kv rest ih =>
    obtain ⟨k', v'⟩ := kv
    by_cases hk : k' = k
    · simp [containsKey, assocGet, hk] at h
    · simp only [containsKey, assocGet, if_neg hk] at h
      simp only [assocSet, if_neg hk, List.length_cons, ih h]

theorem length_assocSet_le {α : Type} (m : List (String × α)) (k : String) (v : α) :
    (assocSet m k v).length ≤ m.length + 1 := by
  cases h : containsKey m k
  · rw [length_assocSet_not_mem m k v h]
  · rw [length_assocSet_mem m k v h]
    omega

theorem length_assocRemove_le {α : Type} (m : List (String × α)) (k : String) :
    (assocRemove m k).length ≤ m.length := by
  induction m with
  | nil => simp [assocRemove]
  | cons kv rest ih =>
    obtain ⟨k', v'⟩ := kv
    by_cases hk : k' = k
    · simp only [assocRemove, if_pos hk, List.length_cons]
      omega
    · simp only [assocRemove, if_neg hk, List.length_cons]
      omega

theorem length_assocRemove_mem {α : Type} (m : List (String × α)) (k : String)
    (h : containsKey m k = true) : (assocRemove m k).length + 1 = m.length := by
  induction m with
  | nil => simp [containsKey, assocGet] at h
  | cons kv rest ih =>
    obtain ⟨k', v'⟩ := kv
    by_cases hk : k' = k
    · simp [assocRemove, hk]
    · simp only [containsKey, assocGet, if_neg hk] at h
      simp only [assocRemove, if_neg hk, List.length_cons, ih h]

theorem assocGet_remove_other {α : Type} (m : List (String × α)) (k j : String)
    (h : j ≠ k) : assocGet (assocRemove m k) j = assocGet m j := by
  induction m with
  | nil => simp [assocRemove]
  | cons kv rest ih =>
    obtain ⟨k', v'⟩ := kv
    by_cases hk : k' = k
    · subst hk
      simp [assocRemove, assocGet, Ne.symm h]
    · simp only [assocRemove, if_neg hk, assocGet, ih]

theorem assocGet_not_mem_keys {α : Type} (m : List (String × α)) (k : String)
    (h : k ∉ m.map Prod.fst) : assocGet m k = none := by
  induction m with
  | nil => rfl
  | cons kv rest ih =>
    obtain ⟨k', v'⟩ := kv
    simp only [List.map_cons, List.mem_cons, not_or] at h
    have hne : k' ≠ k := fun hh => h.1 hh.symm
    simp only [assocGet, if_neg hne]
    exact ih h.2

theorem assocGet_remove_self {α : Type} (m : List (String × α)) (k : String)
    (hnodup : (m.map Prod.fst).Nodup) : assocGet (assocRemove m k) k = none := by
  induction m with
  | nil => rfl
  | cons kv rest ih =>
    obtain ⟨k', v'⟩ := kv
    simp only [List.map_cons, List.nodup_cons] at hnodup
    by_cases hk : k' = k
    · subst hk
      simp only [assocRemove, if_pos rfl]
      exact assocGet_not_mem_keys rest k' hnodup.1
    · simp only [assocRemove, if_neg hk, assocGet, if_neg hk]
      exact ih hnodup.2

theorem assocGet_isSome_of_mem {α : Type} (m : List (String × α)) (kv : String × α)
    (h : kv ∈ m) : (assocGet m kv.1).isSome = true := by
  induction m with
  | nil => simp at h
  | cons kv' rest ih =>
    obtain ⟨k', v'⟩ := kv'
    rcases List.mem_cons.mp h with h1 | h2
    · subst h1
      simp [assocGet]
    · by_cases hk : k' = kv.1
      · simp [assocGet, if_pos hk]
      · simp only [assocGet, if_neg hk]
        exact ih h2

/-- Lookup of a key yields a value that is paired with that key somewhere in
the list. -/
theorem assocGet_mem {α : Type} (m : List (String × α)) (k : String) (v : α)
    (h : assocGet m k = some v) : (k, v) ∈ m := by
  induction m with
  | nil => simp [assocGet] at h
  | cons kv rest ih =>
    obtain ⟨k', v'⟩ := kv
    by_cases hk : k' = k
    · subst hk
      simp only [assocGet, if_true, eq_self_iff_true, Option.some.injEq] at h
      subst h
      exact List.mem_cons_self _ _
    · simp only [assocGet, if_neg hk] at h
      exact List.mem_cons_of_mem _ (ih h)

/-- In a list whose first occurrence of `k` is the displayed entry, lookup
returns exactly that entry's value. -/
theorem assocGet_append_cons {α : Type} (l1 l2 : List (String × α)) (k : String) (v : α)
    (hnot : ∀ kv ∈ l1, kv.1 ≠ k) :
    assocGet (l1 ++ (k, v) :: l2) k = some v := by
  induction l1 with
  | nil => simp [assocGet]
  | cons kv rest ih =>
    obtain ⟨k', v'⟩ := kv
    have hne : k' ≠ k := hnot (k', v') (List.mem_cons_self _ _)
    simp only [List.cons_append, assocGet, if_neg hne]
    exact ih fun kv2 h2 => hnot kv2 (List.mem_cons_of_mem _ h2)

/-- Helper for the `get-port` model: the least bindable port in
`[start, start + fuel)` under the environment predicate `avail`, which tells
which ports can currently be bound on loopback. -/
def findAvailFrom (avail : Nat → Bool) : Nat → Nat → Option Nat
  | _, 0 => none
  | start, fuel + 1 =>
    if avail start then some start else findAvailFrom avail (start + 1) fuel

/-- Models the npm `get-port` package (external dependency of `PortManager`):
given a list of preferred ports it returns the first preferred port that is
currently bindable; when none of the preferred ports is bindable it falls
back to an arbitrary bindable port anywhere in the 16-bit port space (the
package binds port `0` and lets the OS pick; the model deterministically
picks the least bindable port number), and it yields no port only when no
port at all is bindable. -/
def getPortLib (preferred : List Nat) (avail : Nat → Bool) : Option Nat :=
  match preferred.find? avail with
  | some port => some port
  | none => findAvailFrom avail 0 65536

namespace PortManager

/-- State of a `PortManager` instance: the in-memory `allocatedPorts` map and
the `ports` document of the persisted `electron-store` (`persistPorts` writes
the former over the latter; the constructor loads the latter into the
former). -/
structure State where
  allocatedPorts : List (String × Nat)
  storePorts : List (String × Nat)
  deriving DecidableEq

/-- Lower bound of the configured port range (`PORT_RANGE_START`). -/
def PORT_RANGE_START : Nat := 3000

/-- Upper bound of the configured port range (`PORT_RANGE_END`). -/
def PORT_RANGE_END : Nat := 4000

/-- The candidate array `[3000, 3001, ..., 4000]` built by `allocatePort`. -/
def portRange : List Nat :=
  (List.range (PORT_RANGE_END - PORT_RANGE_START + 1)).map
    (fun i => PORT_RANGE_START + i)

/-- Embeds `PortManager.isPortAvailable`: asks `get-port` for the single
preferred port and reports whether the returned port is that port. -/
def isPortAvailable (avail : Nat → Bool) (port : Nat) : Bool :=
  match getPortLib [port] avail with
  | some availablePort => availablePort == port
  | none => false

/-- Embeds the range-scan half of `PortManager.allocatePort`: ask `get-port`
for a port preferring the whole configured range, record and persist the
result. The `.error` branch corresponds to the `catch` that rethrows
`Failed to allocate port`. -/
def allocateNewPort (s : State) (avail : Nat → Bool) (projectId : String) :
    Except String Nat × State :=
  match getPortLib portRange avail with
  | some port =>
    let m := assocSet s.allocatedPorts projectId port
    (.ok port, { allocatedPorts := m, storePorts := m })
  | none => (.error "Failed to allocate port", s)

/-- Embeds `PortManager.allocatePort`: reuse the saved port when it is still
bindable, otherwise scan the configured range (with `get-port`'s fallback
semantics). -/
def allocatePort (s : State) (avail : Nat → Bool) (projectId : String) :
    Except String Nat × State :=
  match assocGet s.allocatedPorts projectId with
  | some savedPort =>
    if isPortAvailable avail savedPort then (.ok savedPort, s)
    else allocateNewPort s avail projectId
  | none => allocateNewPort s avail projectId

/-- Embeds `PortManager.releasePort`: the source only logs — it neither
touches `allocatedPorts` nor the persisted store ("We keep the mapping in
case the project is restarted"), so the state is returned unchanged. -/
def releasePort (s : State) (_projectId : String) : State := s

/-- Embeds `PortManager.getPort` (the lookup method, distinct from the
`get-port` library): a pure read of the in-memory mapping. -/
def getPort (s : State) (projectId : String) : Option Nat :=
  assocGet s.allocatedPorts projectId

end PortManager

theorem isPortAvailable_of_avail (avail : Nat → Bool) (port : Nat)
    (h : avail port = true) : PortManager.isPortAvailable avail port = true := by
  simp [PortManager.isPortAvailable, getPortLib, List.find?, h]

/-- CLAIM C1 — the evaluation showing the divergence. With no persisted
mapping, every port of the configured range `[3000, 4000]` unavailable and
port `2000` the only bindable port, `allocatePort` does not fail with a
`NoPortAvailable`-style error: `get-port`'s documented fallback hands it
port `2000`, which lies outside the configured range and is nevertheless
returned and persisted as the project's mapping. -/
theorem allocatePort_out_of_range_on_exhaustion :
    (PortManager.allocatePort ⟨[], []⟩ (fun p => p == 2000) "p1").1 =
        .ok 2000 ∧
      (PortManager.allocatePort ⟨[], []⟩ (fun p => p == 2000) "p1").2.storePorts =
        [("p1", 2000)] ∧
      2000 < PortManager.PORT_RANGE_START := by
  refine ⟨?_, ?_, by decide⟩ <;> rfl

theorem allocatePort_post_get
    (s : PortManager.State) (avail : Nat → Bool) (pid : String) (port : Nat)
    (h1 : (PortManager.allocatePort s avail pid).1 = .ok port) :
    assocGet (PortManager.allocatePort s avail pid).2.allocatedPorts pid = some port := by
  unfold PortManager.allocatePort at h1 ⊢
  cases hm : assocGet s.allocatedPorts pid with
  | some saved =>
    simp only [hm] at h1 ⊢
    by_cases hav : PortManager.isPortAvailable avail saved = true
    · simp only [if_pos hav] at h1 ⊢
      simp only [Except.ok.injEq] at h1
      rw [hm, h1]
    · simp only [if_neg hav] at h1 ⊢
      cases hgp : getPortLib PortManager.portRange avail with
      | some q =>
        simp only [PortManager.allocateNewPort, hgp, Except.ok.injEq] at h1 ⊢
        rw [assocGet_set_self, h1]
      | none =>
        simp only [PortManager.allocateNewPort, hgp] at h1
        exact Except.noConfusion h1
  | none =>
    simp only [hm] at h1 ⊢
    cases hgp : getPortLib PortManager.portRange avail with
    | some q =>
      simp only [PortManager.allocateNewPort, hgp, Except.ok.injEq] at h1 ⊢
      rw [assocGet_set_self, h1]
    | none =>
      simp only [PortManager.allocateNewPort, hgp] at h1
      exact Except.noConfusion h1

/-- CLAIM C8: calling `allocatePort(p)` twice in succession with no
intervening release, when the port returned by the first call is still
bindable at the second call, returns the same port both times (the second
call hits the saved-port branch). -/
theorem allocatePort_twice_same_port
    (s : PortManager.State) (avail1 avail2 : Nat → Bool) (pid : String) (port : Nat)
    (h1 : (PortManager.allocatePort s avail1 pid).1 = .ok port)
    (h2 : avail2 port = true) :
    (PortManager.allocatePort (PortManager.allocatePort s avail1 pid).2 avail2 pid).1 =
      .ok port := by
  have hget := allocatePort_post_get s avail1 pid port h1
  generalize (PortManager.allocatePort s avail1 pid).2 = s1 at hget ⊢
  unfold PortManager.allocatePort
  simp [hget, isPortAvailable_of_avail avail2 port h2]

/-- CLAIM C8 witness: a concrete run in which the first call allocates port
`3002` (the first bindable port of the range) and the second call returns
the same port. -/
theorem allocatePort_twice_same_port_witness :
    (PortManager.allocatePort
        (PortManager.allocatePort ⟨[], []⟩ (fun p => p == 3002) "proj").2
        (fun p => p == 3002) "proj").1 = .ok 3002 :=
  allocatePort_twice_same_port ⟨[], []⟩ (fun p => p == 3002) (fun p => p == 3002)
    "proj" 3002 (by rfl) (by rfl)

/-- CLAIM C9: `releasePort(p)` leaves the whole port mapping unchanged —
every project's lookup is the same after the call as before, the persisted
store document is untouched, and a later `allocatePort(p)` (with the mapped
port still bindable) reuses exactly the retained port. -/
theorem releasePort_retains_mapping
    (s : PortManager.State) (pid q : String) (avail : Nat → Bool) (port : Nat)
    (hp : PortManager.getPort s pid = some port)
    (hav : avail port = true) :
    PortManager.getPort (PortManager.releasePort s pid) q = PortManager.getPort s q ∧
      (PortManager.releasePort s pid).storePorts = s.storePorts ∧
      (PortManager.allocatePort (PortManager.releasePort s pid) avail pid).1 =
        .ok port := by
  refine ⟨rfl, rfl, ?_⟩
  simp only [PortManager.getPort] at hp
  unfold PortManager.allocatePort PortManager.releasePort
  simp [hp, isPortAvailable_of_avail avail port hav]

/-- CLAIM C9 witness: a concrete release on a mapped project, after which
the lookup, the store and a re-allocation all see the retained port
`3000`. -/
theorem releasePort_retains_mapping_witness :
    PortManager.getPort
          (PortManager.releasePort ⟨[("a", 3000)], [("a", 3000)]⟩ "a") "a" =
        PortManager.getPort ⟨[("a", 3000)], [("a", 3000)]⟩ "a" ∧
      (PortManager.releasePort ⟨[("a", 3000)], [("a", 3000)]⟩ "a").storePorts =
        [("a", 3000)] ∧
      (PortManager.allocatePort
          (PortManager.releasePort ⟨[("a", 3000)], [("a", 3000)]⟩ "a")
          (fun p => p == 3000) "a").1 = .ok 3000 :=
  releasePort_retains_mapping ⟨[("a", 3000)], [("a", 3000)]⟩ "a" "a"
    (fun p => p == 3000) 3000 (by rfl) (by rfl)

/-- One lowercase hexadecimal digit character for a value below 16, as
produced by Node's `Buffer.toString('hex')`: code point 48 + n for digits,
87 + n for the letters `a`–`f`. -/
def toHexDigit (n : Nat) : Char :=
  if n < 10 then Char.ofNat (48 + n) else Char.ofNat (87 + n)

/-- Hex encoding of a byte list, two lowercase digits per byte, as
`Buffer.toString('hex')`. -/
def hexChars : List Nat → List Char
  | [] => []
  | b :: rest => toHexDigit (b / 16) :: toHexDigit (b % 16) :: hexChars rest

/-- Hex encoding of a byte list as a string. -/
def hexEncode (bs : List Nat) : String := String.mk (hexChars bs)

/-- Embeds `ProjectServerManager.generateAccessToken`
(`crypto.randomBytes(32).toString('hex')`): the hex encoding of the bytes
that `crypto.randomBytes(32)` returned, the bytes being the environment's
entropy input for the call. -/
def generateAccessToken (randomBytes : List Nat) : String := hexEncode randomBytes

/-- Modelled from the spec: the class `LocalFileServer`
(src/main/fileServer/LocalFileServer.ts) is not among the extracted source
files — only its callers and the repository's integration-test report
quoting it are — so its observable state is taken from spec sections 3 and
4.2: project id, served root, per-instance access token, running flag,
last-accessed timestamp and bound port. `stopFails` is an environment flag
telling whether this instance's `stop()` will reject when called. -/
structure LocalFileServer where
  projectId : String
  projectPath : String
  accessToken : String
  running : Bool
  lastAccessed : Nat
  port : Nat
  stopFails : Bool
  deriving DecidableEq

/-- Embeds the `ServerInfo` record stored in the
`ProjectServerManager.servers` map. -/
structure ServerInfo where
  server : LocalFileServer
  accessToken : String
  lastAccessed : Nat
  deriving DecidableEq

/-- State of the `ProjectServerManager`: the `servers` map in insertion
order, the embedded `PortManager`, and whether the idle-check interval
timer is currently installed. -/
structure ManagerState where
  servers : List (String × ServerInfo)
  portMgr : PortManager.State
  idleCheckActive : Bool
  deriving DecidableEq

/-- `MAX_ACTIVE_SERVERS` of `ProjectServerManager` (maximum concurrent
servers). -/
def MAX_ACTIVE_SERVERS : Nat := 10

/-- `IDLE_TIMEOUT_MS` of `ProjectServerManager` (5 minutes). -/
def IDLE_TIMEOUT_MS : Nat := 5 * 60 * 1000

/-- Environment of one `getServer` call: which ports are bindable, the
bytes `crypto.randomBytes(32)` returns, the current `Date.now()`, whether
`server.start(port)` would fail to bind, and whether the started server's
later `stop()` would reject. -/
structure Env where
  avail : Nat → Bool
  randomBytes : List Nat
  now : Nat
  startFails : Bool
  stopFails : Bool

/-- Embeds `ProjectServerManager.stopServer`: a missing entry is a no-op;
otherwise `server.stop()` runs first — if it rejects, the rejection
propagates and the `servers.delete` below it is never reached — and then
the entry is deleted. -/
def stopServer (s : ManagerState) (pid : String) :
    Except String Unit × ManagerState :=
  match assocGet s.servers pid with
  | none => (.ok (), s)
  | some info =>
    if info.server.stopFails then (.error "stop failed", s)
    else (.ok (), { s with servers := assocRemove s.servers pid })

/-- One step of the `servers.forEach` loop inside `evictLRUServer`: the
accumulator is `(lruProjectId, oldestAccess)` with `none` standing for the
initial `null` / `Infinity`, and an entry replaces the accumulator exactly
when its `getLastAccessed()` is strictly below `oldestAccess`. -/
def lruStep (acc : Option String × Option Nat) (kv : String × ServerInfo) :
    Option String × Option Nat :=
  match acc.2 with
  | none => (some kv.1, some kv.2.server.lastAccessed)
  | some oldest =>
    if kv.2.server.lastAccessed < oldest then
      (some kv.1, some kv.2.server.lastAccessed)
    else acc

/-- The full `forEach` scan of `evictLRUServer`. -/
def lruFold (servers : List (String × ServerInfo)) : Option String × Option Nat :=
  servers.foldl lruStep (none, none)

/-- Embeds `ProjectServerManager.evictLRUServer`: nothing happens below the
`MAX_ACTIVE_SERVERS` limit; otherwise the least-recently-accessed project
is stopped. The `if (lruProjectId)` truthiness test of the source skips the
eviction both for `null` and for an empty-string project id. -/
def evictLRUServer (s : ManagerState) : Except String Unit × ManagerState :=
  if s.servers.length < MAX_ACTIVE_SERVERS then (.ok (), s)
  else
    match (lruFold s.servers).1 with
    | none => (.ok (), s)
    | some lruProjectId =>
      if lruProjectId = "" then (.ok (), s)
      else stopServer s lruProjectId

/-- The tail of the create-and-start path of
`ProjectServerManager.getServer`, after the eviction step: mint a fresh
token, allocate a port, start the server and insert the `ServerInfo`
record; any rejection propagates together with the state reached so far. -/
def startAndRegister (s1 : ManagerState) (env : Env) (pid ppath : String) :
    Except String LocalFileServer × ManagerState :=
  let accessToken := generateAccessToken env.randomBytes
  match PortManager.allocatePort s1.portMgr env.avail pid with
  | (.error e, pm1) => (.error e, { s1 with portMgr := pm1 })
  | (.ok port, pm1) =>
    if env.startFails then (.error "BindFailed", { s1 with portMgr := pm1 })
    else
      let server : LocalFileServer :=
        { projectId := pid, projectPath := ppath, accessToken := accessToken,
          running := true, lastAccessed := env.now, port := port,
          stopFails := env.stopFails }
      (.ok server,
        { s1 with portMgr := pm1,
                  servers := assocSet s1.servers pid
                    { server := server, accessToken := accessToken,
                      lastAccessed := env.now } })

/-- The create-and-start path of `ProjectServerManager.getServer`, taken
when no running server exists for the project: evict if at the limit, then
allocate, start and register (`startAndRegister`); a rejection of the
eviction's stop propagates. -/
def createServer (s : ManagerState) (env : Env) (pid ppath : String) :
    Except String LocalFileServer × ManagerState :=
  match evictLRUServer s with
  | (.error e, s1) => (.error e, s1)
  | (.ok _, s1) => startAndRegister s1 env pid ppath

/-- Embeds `ProjectServerManager.getServer`: reuse an existing running
instance, otherwise take the create-and-start path (an existing but
non-running entry is overwritten by the insertion at the end of that
path). -/
def getServer (s : ManagerState) (env : Env) (pid ppath : String) :
    Except String LocalFileServer × ManagerState :=
  match assocGet s.servers pid with
  | some existing =>
    if existing.server.running then (.ok existing.server, s)
    else createServer s env pid ppath
  | none => createServer s env pid ppath

/-- The `for (const projectId of serversToClose)` loop of the idle reaper:
sequential awaited stops, with the first rejection aborting the loop and
propagating out of the scan (there is no try/catch in the source). -/
def closeLoop : List String → ManagerState → Except String Unit × ManagerState
  | [], s => (.ok (), s)
  | pid :: rest, s =>
    match stopServer s pid with
    | (.ok _, s1) => closeLoop rest s1
    | (.error e, s1) => (.error e, s1)

/-- The `serversToClose` list collected by `checkAndCloseIdleServers`: the
projects whose idle time `now - getLastAccessed()` exceeds
`IDLE_TIMEOUT_MS`. -/
def idleProjects (s : ManagerState) (now : Nat) : List String :=
  (s.servers.filter
      (fun kv => IDLE_TIMEOUT_MS < now - kv.2.server.lastAccessed)).map Prod.fst

/-- Embeds `ProjectServerManager.checkAndCloseIdleServers`: collect the
idle projects, then stop them one after the other (the `length > 0` guard
of the source merely skips an empty loop). -/
def checkAndCloseIdleServers (s : ManagerState) (now : Nat) :
    Except String Unit × ManagerState :=
  closeLoop (idleProjects s now) s

/-- Observable events of `stopAllServers`, in order: the begin of each
instance's stop, and the `clearInterval` cancelling the idle reaper. -/
inductive Ev where
  | stopInstance (pid : String)
  | cancelReaper
  deriving DecidableEq

/-- The `Promise.all(keys.map(stopServer))` stage of `stopAllServers`:
every stop runs (one rejection does not cancel the others) and the first
rejection is what `Promise.all` reports. -/
def stopAllGo : List String → ManagerState → Option String × ManagerState × List Ev
  | [], s => (none, s, [])
  | pid :: rest, s =>
    match stopServer s pid with
    | (.ok _, s1) =>
      let r := stopAllGo rest s1
      (r.1, r.2.1, .stopInstance pid :: r.2.2)
    | (.error e, s1) =>
      let r := stopAllGo rest s1
      (some e, r.2.1, .stopInstance pid :: r.2.2)

/-- Embeds `ProjectServerManager.stopAllServers`: stop every project of the
pool (via `Promise.all`, modelled as all stops running with the first
rejection propagating), and only afterwards — and only when the
`Promise.all` resolved — clear the idle-check interval. -/
def stopAllServers (s : ManagerState) : Except String Unit × ManagerState × List Ev :=
  let r := stopAllGo (s.servers.map Prod.fst) s
  match r.1 with
  | some e => (.error e, r.2.1, r.2.2)
  | none =>
    if r.2.1.idleCheckActive then
      (.ok (), { r.2.1 with idleCheckActive := false }, r.2.2 ++ [.cancelReaper])
    else (.ok (), r.2.1, r.2.2)

/-- The projects present in `old` whose keys are no longer present in
`new` — the instances an operation evicted. -/
def removedKeys (old new : List (String × ServerInfo)) : List String :=
  (old.map Prod.fst).filter (fun k => !(containsKey new k))

/-- Reference definition following the spec's words (for the refinement
claim about eviction, not taken from the source): evict "the instance with
the smallest `lastAccessed` (ties broken by insertion order)", i.e. the
first pool entry attaining the minimal `lastAccessed`. -/
def specLRUChoice (servers : List (String × ServerInfo)) : Option String :=
  match servers.map (fun kv => kv.2.server.lastAccessed) with
  | [] => none
  | la :: rest =>
    (servers.find?
        (fun kv => kv.2.server.lastAccessed == rest.foldl Nat.min la)).map Prod.fst

/-- Whether an `Except` result is a success, as a Boolean. -/
def exceptIsOk {ε α : Type} : Except ε α → Bool
  | .ok _ => true
  | .error _ => false

/-- The events of a trace that happen before the reaper cancellation (an
empty result means the cancellation came first or never happened). -/
def stopsBeforeCancel (tr : List Ev) : List Ev :=
  tr.takeWhile (fun e => e != Ev.cancelReaper)

theorem natMin_le_left (a b : Nat) : Nat.min a b ≤ a :=
  Nat.min_le_left a b

theorem natMin_le_right (a b : Nat) : Nat.min a b ≤ b :=
  Nat.min_le_right a b

theorem natMin_cases (a b : Nat) : Nat.min a b = a ∨ Nat.min a b = b := by
  rcases le_total a b with h | h
  · exact Or.inl (min_eq_left h)
  · exact Or.inr (min_eq_right h)

theorem foldl_min_le_init (l : List Nat) (a : Nat) : l.foldl Nat.min a ≤ a := by
  induction l generalizing a with
  | nil => exact le_refl a
  | cons x rest ih =>
    exact le_trans (ih (Nat.min a x)) (natMin_le_left a x)

theorem foldl_min_le_mem (l : List Nat) :
    ∀ (a x : Nat), x ∈ l → l.foldl Nat.min a ≤ x := by
  induction l with
  | nil =>
    intro a x hx
    simp at hx
  | cons y rest ih =>
    intro a x hx
    rcases List.mem_cons.mp hx with h1 | h2
    · subst h1
      exact le_trans (foldl_min_le_init rest (Nat.min a x)) (natMin_le_right a x)
    · exact ih (Nat.min a y) x h2

theorem foldl_min_eq_or_mem (l : List Nat) :
    ∀ a : Nat, l.foldl Nat.min a = a ∨ l.foldl Nat.min a ∈ l := by
  induction l with
  | nil =>
    intro a
    exact Or.inl rfl
  | cons y rest ih =>
    intro a
    rcases ih (Nat.min a y) with h | h
    · rw [List.foldl_cons, h]
      rcases natMin_cases a y with h2 | h2
      · exact Or.inl h2
      · right
        rw [h2]
        exact List.mem_cons_self _ _
    · right
      rw [List.foldl_cons]
      exact List.mem_cons_of_mem _ h

theorem find?_append_first {α : Type} (p : α → Bool) (l1 l2 : List α) (x : α)
    (h1 : ∀ y ∈ l1, p y = false) (h2 : p x = true) :
    (l1 ++ x :: l2).find? p = some x := by
  induction l1 with
  | nil =>
    simp only [List.nil_append]
    rw [List.find?_cons_of_pos _ h2]
  | cons y rest ih =>
    have hy : p y = false := h1 y (List.mem_cons_self _ _)
    rw [List.cons_append, List.find?_cons_of_neg _ (by simp [hy])]
    exact ih fun z hz => h1 z (List.mem_cons_of_mem _ hz)

theorem lruFold_seed_spec (l : List (String × ServerInfo)) :
    ∀ (k : String) (la : Nat),
      ∃ k' la', l.foldl lruStep (some k, some la) = (some k', some la') ∧
        la' ≤ la ∧
        (∀ kv ∈ l, la' ≤ kv.2.server.lastAccessed) ∧
        ((k' = k ∧ la' = la) ∨
          ∃ info l1 l2, l = l1 ++ (k', info) :: l2 ∧
            info.server.lastAccessed = la' ∧ la' < la ∧
            ∀ kv ∈ l1, la' < kv.2.server.lastAccessed) := by
  induction l with
  | nil =>
    intro k la
    exact ⟨k, la, rfl, le_refl la, by simp, Or.inl ⟨rfl, rfl⟩⟩
  | cons e rest ih =>
    intro k la
    by_cases he : e.2.server.lastAccessed < la
    · have hstep : lruStep (some k, some la) e =
          (some e.1, some e.2.server.lastAccessed) := by
        simp [lruStep, he]
      obtain ⟨k', la', heq, hle, hall, hcase⟩ := ih e.1 e.2.server.lastAccessed
      refine ⟨k', la', ?_, by omega, ?_, ?_⟩
      · rw [List.foldl_cons, hstep]
        exact heq
      · intro kv hkv
        rcases List.mem_cons.mp hkv with h1 | h2
        · subst h1
          exact hle
        · exact hall kv h2
      · rcases hcase with ⟨hk, hla⟩ | ⟨info, l1, l2, hsplit, hinfo, hlt, hpre⟩
        · right
          refine ⟨e.2, [], rest, ?_, ?_, ?_, by simp⟩
          · simp [hk]
          · rw [hla]
          · omega
        · right
          refine ⟨info, e :: l1, l2, by simp [hsplit], hinfo, by omega, ?_⟩
          intro kv hkv
          rcases List.mem_cons.mp hkv with h1 | h2
          · subst h1
            omega
          · exact hpre kv h2
    · have hstep : lruStep (some k, some la) e = (some k, some la) := by
        simp [lruStep, he]
      obtain ⟨k', la', heq, hle, hall, hcase⟩ := ih k la
      refine ⟨k', la', ?_, hle, ?_, ?_⟩
      · rw [List.foldl_cons, hstep]
        exact heq
      · intro kv hkv
        rcases List.mem_cons.mp hkv with h1 | h2
        · subst h1
          omega
        · exact hall kv h2
      · rcases hcase with hl | ⟨info, l1, l2, hsplit, hinfo, hlt, hpre⟩
        · exact Or.inl hl
        · right
          refine ⟨info, e :: l1, l2, by simp [hsplit], hinfo, hlt, ?_⟩
          intro kv hkv
          rcases List.mem_cons.mp hkv with h1 | h2
          · subst h1
            omega
          · exact hpre kv h2

theorem lruFold_spec (l : List (String × ServerInfo)) (hne : l ≠ []) :
    ∃ k la, lruFold l = (some k, some la) ∧
      (∀ kv ∈ l, la ≤ kv.2.server.lastAccessed) ∧
      ∃ info l1 l2, l = l1 ++ (k, info) :: l2 ∧
        info.server.lastAccessed = la ∧
        ∀ kv ∈ l1, la < kv.2.server.lastAccessed := by
  cases l with
  | nil => exact absurd rfl hne
  | cons e rest =>
    obtain ⟨k, la, heq, hle, hall, hcase⟩ :=
      lruFold_seed_spec rest e.1 e.2.server.lastAccessed
    refine ⟨k, la, ?_, ?_, ?_⟩
    · rw [lruFold, List.foldl_cons]
      exact heq
    · intro kv hkv
      rcases List.mem_cons.mp hkv with h1 | h2
      · subst h1
        exact hle
      · exact hall kv h2
    · rcases hcase with ⟨hk, hla⟩ | ⟨info, l1, l2, hsplit, hinfo, hpre⟩
      · refine ⟨e.2, [], rest, ?_, ?_, by simp⟩
        · simp [hk]
        · rw [hla]
      · obtain ⟨hlt, hpre2⟩ := hpre
        refine ⟨info, e :: l1, l2, by simp [hsplit], hinfo, ?_⟩
        intro kv hkv
        rcases List.mem_cons.mp hkv with h1 | h2
        · subst h1
          omega
        · exact hpre2 kv h2

theorem specLRUChoice_eq (l : List (String × ServerInfo)) (k : String) (la : Nat)
    (info : ServerInfo) (l1 l2 : List (String × ServerInfo))
    (hsplit : l = l1 ++ (k, info) :: l2)
    (hinfo : info.server.lastAccessed = la)
    (hall : ∀ kv ∈ l, la ≤ kv.2.server.lastAccessed)
    (hpre : ∀ kv ∈ l1, la < kv.2.server.lastAccessed) :
    specLRUChoice l = some k := by
  cases hl : l with
  | nil =>
    rw [hl] at hsplit
    exact absurd hsplit.symm (by simp)
  | cons e rest =>
    rw [hl] at hsplit hall
    have hm : (rest.map (fun kv => kv.2.server.lastAccessed)).foldl Nat.min
        e.2.server.lastAccessed = la := by
      apply le_antisymm
      · have hkin : (k, info) ∈ e :: rest := by
          rw [hsplit]
          exact List.mem_append_right _ (List.mem_cons_self _ _)
        rcases List.mem_cons.mp hkin with h1 | h2
        · have he2 : e.2.server.lastAccessed = la := by
            rw [← h1]
            exact hinfo
          rw [← he2]
          exact foldl_min_le_init _ _
        · have : la ∈ rest.map (fun kv => kv.2.server.lastAccessed) := by
            exact List.mem_map.mpr ⟨(k, info), h2, hinfo⟩
          exact foldl_min_le_mem _ _ la this
      · rcases foldl_min_eq_or_mem
            (rest.map (fun kv => kv.2.server.lastAccessed))
            e.2.server.lastAccessed with h | h
        · rw [h]
          exact hall e (List.mem_cons_self _ _)
        · obtain ⟨kv, hkv, hkva⟩ := List.mem_map.mp h
          rw [← hkva]
          exact hall kv (List.mem_cons_of_mem _ hkv)
    unfold specLRUChoice
    simp only [List.map_cons]
    rw [hsplit]
    rw [find?_append_first (fun kv => kv.2.server.lastAccessed ==
        (rest.map (fun kv => kv.2.server.lastAccessed)).foldl Nat.min
          e.2.server.lastAccessed) l1 l2 (k, info) ?_ ?_]
    · rfl
    · intro y hy
      rw [hm]
      have : la < y.2.server.lastAccessed := hpre y hy
      exact beq_eq_false_iff_ne.mpr (by omega)
    · rw [hm]
      exact beq_iff_eq.mpr hinfo

theorem assocRemove_of_get_none {α : Type} (m : List (String × α)) (k : String)
    (h : assocGet m k = none) : assocRemove m k = m := by
  induction m with
  | nil => rfl
  | cons kv rest ih =>
    obtain ⟨k', v'⟩ := kv
    by_cases hk : k' = k
    · rw [hk] at h
      simp [assocGet] at h
    · simp only [assocGet, if_neg hk] at h
      simp only [assocRemove, if_neg hk, ih h]

theorem keys_assocRemove_sublist {α : Type} (m : List (String × α)) (k : String) :
    ((assocRemove m k).map Prod.fst).Sublist (m.map Prod.fst) := by
  induction m with
  | nil => exact List.Sublist.refl _
  | cons kv rest ih =>
    obtain ⟨k', v'⟩ := kv
    by_cases hk : k' = k
    · simp only [assocRemove, if_pos hk, List.map_cons]
      exact List.Sublist.cons _ (List.Sublist.refl _)
    · simp only [assocRemove, if_neg hk, List.map_cons]
      exact List.Sublist.cons₂ _ ih

theorem nodup_assocRemove {α : Type} (m : List (String × α)) (k : String)
    (h : (m.map Prod.fst).Nodup) : ((assocRemove m k).map Prod.fst).Nodup :=
  List.Nodup.sublist (keys_assocRemove_sublist m k) h

theorem assocGet_foldl_remove_other {α : Type} (ks : List String) :
    ∀ (m : List (String × α)) (j : String), j ∉ ks →
      assocGet (ks.foldl assocRemove m) j = assocGet m j := by
  induction ks with
  | nil =>
    intro m j _
    rfl
  | cons k rest ih =>
    intro m j hj
    simp only [List.mem_cons, not_or] at hj
    rw [List.foldl_cons, ih (assocRemove m k) j hj.2,
      assocGet_remove_other m k j hj.1]

theorem stopServer_servers_cases (s : ManagerState) (pid : String) :
    (stopServer s pid).2.servers = s.servers ∨
      (stopServer s pid).2.servers = assocRemove s.servers pid := by
  unfold stopServer
  split
  · exact Or.inl rfl
  · split
    · exact Or.inl rfl
    · exact Or.inr rfl

theorem stopServer_length_le (s : ManagerState) (pid : String) :
    (stopServer s pid).2.servers.length ≤ s.servers.length := by
  rcases stopServer_servers_cases s pid with h | h
  · rw [h]
  · rw [h]
    exact length_assocRemove_le _ _

theorem stopServer_ok_of_get (s : ManagerState) (pid : String) (info : ServerInfo)
    (hm : assocGet s.servers pid = some info)
    (hf : info.server.stopFails = false) :
    stopServer s pid = (.ok (), { s with servers := assocRemove s.servers pid }) := by
  unfold stopServer
  rw [hm]
  simp [hf]

theorem stopServer_error_of_get (s : ManagerState) (pid : String) (info : ServerInfo)
    (hm : assocGet s.servers pid = some info)
    (hf : info.server.stopFails = true) :
    stopServer s pid = (.error "stop failed", s) := by
  unfold stopServer
  rw [hm]
  simp [hf]

theorem closeLoop_length_le (l : List String) :
    ∀ s : ManagerState, (closeLoop l s).2.servers.length ≤ s.servers.length := by
  induction l with
  | nil =>
    intro s
    exact le_refl _
  | cons pid rest ih =>
    intro s
    have hlen := stopServer_length_le s pid
    unfold closeLoop
    cases hs : stopServer s pid with
    | mk r s1 =>
      rw [hs] at hlen
      cases r with
      | ok u => exact le_trans (ih s1) hlen
      | error e => exact hlen

theorem stopAllGo_length_le (l : List String) :
    ∀ s : ManagerState, (stopAllGo l s).2.1.servers.length ≤ s.servers.length := by
  induction l with
  | nil =>
    intro s
    exact le_refl _
  | cons pid rest ih =>
    intro s
    have hlen := stopServer_length_le s pid
    unfold stopAllGo
    cases hs : stopServer s pid with
    | mk r s1 =>
      rw [hs] at hlen
      cases r with
      | ok u => exact le_trans (ih s1) hlen
      | error e => exact le_trans (ih s1) hlen

theorem stopAllServers_servers_length_le (s : ManagerState) :
    (stopAllServers s).2.1.servers.length ≤ s.servers.length := by
  have hgo := stopAllGo_length_le (s.servers.map Prod.fst) s
  unfold stopAllServers
  cases hr : stopAllGo (s.servers.map Prod.fst) s with
  | mk e rest =>
    obtain ⟨s1, tr⟩ := rest
    rw [hr] at hgo
    cases e with
    | none =>
      by_cases hb : s1.idleCheckActive = true
      · simpa [hb] using hgo
      · simpa [hb] using hgo
    | some err => simpa using hgo

theorem evictLRU_small (s : ManagerState)
    (h : s.servers.length < MAX_ACTIVE_SERVERS) :
    evictLRUServer s = (.ok (), s) := by
  unfold evictLRUServer
  rw [if_pos h]

theorem evictLRU_length_le (s : ManagerState) :
    (evictLRUServer s).2.servers.length ≤ s.servers.length := by
  unfold evictLRUServer
  split
  · exact le_refl _
  · split
    · exact le_refl _
    · split
      · exact le_refl _
      · exact stopServer_length_le s _

theorem evictLRU_full_cases (s : ManagerState)
    (hfull : MAX_ACTIVE_SERVERS ≤ s.servers.length)
    (hkeys : ∀ kv ∈ s.servers, kv.1 ≠ "")
    (hnodup : (s.servers.map Prod.fst).Nodup) :
    ∃ k info, specLRUChoice s.servers = some k ∧
      assocGet s.servers k = some info ∧
      ((info.server.stopFails = true ∧
          evictLRUServer s = (.error "stop failed", s)) ∨
        (info.server.stopFails = false ∧
          evictLRUServer s =
            (.ok (), { s with servers := assocRemove s.servers k }))) := by
  have hne : s.servers ≠ [] := by
    intro h
    rw [h] at hfull
    simp [MAX_ACTIVE_SERVERS] at hfull
  obtain ⟨k, la, heq, hall, info, l1, l2, hsplit, hinfo, hpre⟩ :=
    lruFold_spec s.servers hne
  have hkmem : (k, info) ∈ s.servers := by
    rw [hsplit]
    exact List.mem_append_right _ (List.mem_cons_self _ _)
  have hkne : k ≠ "" := hkeys (k, info) hkmem
  have hl1 : ∀ kv ∈ l1, kv.1 ≠ k := by
    intro kv hkv heq2
    have hnd := hnodup
    rw [hsplit] at hnd
    simp only [List.map_append, List.map_cons] at hnd
    rw [List.nodup_append] at hnd
    exact hnd.2.2 (heq2 ▸ List.mem_map.mpr ⟨kv, hkv, rfl⟩)
      (List.mem_cons_self _ _)
  have hget : assocGet s.servers k = some info := by
    rw [hsplit]
    exact assocGet_append_cons l1 l2 k info hl1
  have hchoice : specLRUChoice s.servers = some k :=
    specLRUChoice_eq s.servers k la info l1 l2 hsplit hinfo hall hpre
  refine ⟨k, info, hchoice, hget, ?_⟩
  have hnlt : ¬ s.servers.length < MAX_ACTIVE_SERVERS := by omega
  have h1 : (lruFold s.servers).1 = some k := by rw [heq]
  cases hf : info.server.stopFails
  · right
    refine ⟨rfl, ?_⟩
    have hstop := stopServer_ok_of_get s k info hget hf
    unfold evictLRUServer
    rw [if_neg hnlt, h1]
    simp [hkne, hstop]
  · left
    refine ⟨rfl, ?_⟩
    have hstop := stopServer_error_of_get s k info hget hf
    unfold evictLRUServer
    rw [if_neg hnlt, h1]
    simp [hkne, hstop]

theorem evictLRU_ok_shrinks (s : ManagerState)
    (hfull : MAX_ACTIVE_SERVERS ≤ s.servers.length)
    (hkeys : ∀ kv ∈ s.servers, kv.1 ≠ "")
    (hnodup : (s.servers.map Prod.fst).Nodup)
    (hok : exceptIsOk (evictLRUServer s).1 = true) :
    (evictLRUServer s).2.servers.length + 1 = s.servers.length := by
  obtain ⟨k, info, hchoice, hget, hor⟩ := evictLRU_full_cases s hfull hkeys hnodup
  rcases hor with ⟨hf, hev⟩ | ⟨hf, hev⟩
  · rw [hev] at hok
    simp [exceptIsOk] at hok
  · rw [hev]
    have hck : containsKey s.servers k = true := by
      unfold containsKey
      rw [hget]
      rfl
    exact length_assocRemove_mem s.servers k hck

theorem removedKeys_nil_of_all (old new : List (String × ServerInfo)) :
    (∀ kv ∈ old, containsKey new kv.1 = true) → removedKeys old new = [] := by
  induction old with
  | nil =>
    intro _
    rfl
  | cons kv rest ih =>
    intro h
    have h1 : containsKey new kv.1 = true := h kv (List.mem_cons_self _ _)
    have hrest := ih fun kv2 h2 => h kv2 (List.mem_cons_of_mem _ h2)
    simp only [removedKeys, List.map_cons, List.filter_cons] at hrest ⊢
    simp [h1, hrest]

theorem removedKeys_eq_single (old new : List (String × ServerInfo)) (k : String) :
    (old.map Prod.fst).Nodup → k ∈ old.map Prod.fst →
      containsKey new k = false →
      (∀ kv ∈ old, kv.1 ≠ k → containsKey new kv.1 = true) →
      removedKeys old new = [k] := by
  induction old with
  | nil =>
    intro _ hmem _ _
    simp at hmem
  | cons kv rest ih =>
    intro hnodup hmem hknot hother
    simp only [List.map_cons, List.nodup_cons] at hnodup
    simp only [List.map_cons] at hmem
    rcases List.mem_cons.mp hmem with h1 | h2
    · have hrest : removedKeys rest new = [] := by
        apply removedKeys_nil_of_all
        intro kv2 hkv2
        apply hother kv2 (List.mem_cons_of_mem _ hkv2)
        intro heq2
        apply hnodup.1
        rw [← h1, ← heq2]
        exact List.mem_map.mpr ⟨kv2, hkv2, rfl⟩
      have hhead : containsKey new kv.1 = false := by
        rw [← h1]
        exact hknot
      simp only [removedKeys, List.map_cons, List.filter_cons] at hrest ⊢
      simp [hhead, hrest, h1]
    · have hkvne : kv.1 ≠ k := by
        intro heq2
        apply hnodup.1
        rw [heq2]
        exact h2
      have hhead : containsKey new kv.1 = true :=
        hother kv (List.mem_cons_self _ _) hkvne
      have hrest := ih hnodup.2 h2 hknot
        (fun kv2 hkv2 hne2 => hother kv2 (List.mem_cons_of_mem _ hkv2) hne2)
      simp only [removedKeys, List.map_cons, List.filter_cons] at hrest ⊢
      simp [hhead, hrest]

theorem getServer_eq_create (s : ManagerState) (env : Env) (pid ppath : String)
    (h : assocGet s.servers pid = none) :
    getServer s env pid ppath = createServer s env pid ppath := by
  unfold getServer
  rw [h]

theorem getServer_state_cases (s : ManagerState) (env : Env) (pid ppath : String) :
    (getServer s env pid ppath).2 = s ∨
      getServer s env pid ppath = createServer s env pid ppath := by
  unfold getServer
  split
  · split
    · exact Or.inl rfl
    · exact Or.inr rfl
  · exact Or.inr rfl

theorem startAndRegister_servers_cases (s1 : ManagerState) (env : Env)
    (pid ppath : String) :
    (startAndRegister s1 env pid ppath).2.servers = s1.servers ∨
      ∃ info, (startAndRegister s1 env pid ppath).2.servers =
        assocSet s1.servers pid info := by
  unfold startAndRegister
  cases hap : PortManager.allocatePort s1.portMgr env.avail pid with
  | mk pr pm1 =>
    cases pr with
    | error e => exact Or.inl rfl
    | ok port =>
      by_cases hsf : env.startFails = true
      · left
        simp [hsf]
      · right
        exact ⟨_, by
          simp [hsf]
          rfl⟩

theorem createServer_servers_cases (s : ManagerState) (env : Env)
    (pid ppath : String) :
    (createServer s env pid ppath).2.servers = (evictLRUServer s).2.servers ∨
      (exceptIsOk (evictLRUServer s).1 = true ∧
        ∃ info, (createServer s env pid ppath).2.servers =
          assocSet (evictLRUServer s).2.servers pid info) := by
  unfold createServer
  cases hev : evictLRUServer s with
  | mk r s1 =>
    cases r with
    | error e => exact Or.inl rfl
    | ok u =>
      rcases startAndRegister_servers_cases s1 env pid ppath with h | ⟨info, h⟩
      · exact Or.inl h
      · exact Or.inr ⟨rfl, info, h⟩

theorem startAndRegister_ok_servers (s1 : ManagerState) (env : Env)
    (pid ppath : String)
    (hok : exceptIsOk (startAndRegister s1 env pid ppath).1 = true) :
    ∃ info, (startAndRegister s1 env pid ppath).2.servers =
      assocSet s1.servers pid info := by
  unfold startAndRegister at hok ⊢
  cases hap : PortManager.allocatePort s1.portMgr env.avail pid with
  | mk pr pm1 =>
    rw [hap] at hok
    cases pr with
    | error e => simp [exceptIsOk] at hok
    | ok port =>
      by_cases hsf : env.startFails = true
      · simp [hsf, exceptIsOk] at hok
      · exact ⟨_, by
          simp [hsf]
          rfl⟩

theorem createServer_ok_analysis (s : ManagerState) (env : Env)
    (pid ppath : String)
    (hok : exceptIsOk (createServer s env pid ppath).1 = true) :
    exceptIsOk (evictLRUServer s).1 = true ∧
      ∃ info, (createServer s env pid ppath).2.servers =
        assocSet (evictLRUServer s).2.servers pid info := by
  unfold createServer at hok ⊢
  cases hev : evictLRUServer s with
  | mk r s1 =>
    rw [hev] at hok
    cases r with
    | error e => simp [exceptIsOk] at hok
    | ok u =>
      exact ⟨rfl, startAndRegister_ok_servers s1 env pid ppath hok⟩

theorem getServer_length_le (s : ManagerState) (env : Env) (pid ppath : String)
    (hsz : s.servers.length ≤ MAX_ACTIVE_SERVERS)
    (hkeys : ∀ kv ∈ s.servers, kv.1 ≠ "")
    (hnodup : (s.servers.map Prod.fst).Nodup) :
    (getServer s env pid ppath).2.servers.length ≤ MAX_ACTIVE_SERVERS := by
  rcases getServer_state_cases s env pid ppath with h | h
  · rw [h]
    exact hsz
  · rw [h]
    rcases createServer_servers_cases s env pid ppath with h2 | ⟨hevok, info, h2⟩
    · rw [h2]
      exact le_trans (evictLRU_length_le s) hsz
    · rw [h2]
      have hle := length_assocSet_le (evictLRUServer s).2.servers pid info
      by_cases hlt : s.servers.length < MAX_ACTIVE_SERVERS
      · have hseq : (evictLRUServer s).2.servers = s.servers := by
          rw [evictLRU_small s hlt]
        rw [hseq] at hle ⊢
        omega
      · have hshrink := evictLRU_ok_shrinks s (by omega) hkeys hnodup hevok
        omega

theorem getServer_below_capacity (s : ManagerState) (env : Env)
    (pid ppath : String)
    (hlt : s.servers.length < MAX_ACTIVE_SERVERS)
    (hpid : assocGet s.servers pid = none) :
    removedKeys s.servers (getServer s env pid ppath).2.servers = [] ∧
      (exceptIsOk (getServer s env pid ppath).1 = true →
        (getServer s env pid ppath).2.servers.length = s.servers.length + 1) := by
  have hcreate := getServer_eq_create s env pid ppath hpid
  have hcs : createServer s env pid ppath = startAndRegister s env pid ppath := by
    unfold createServer
    rw [evictLRU_small s hlt]
  rw [hcreate, hcs]
  constructor
  · rcases startAndRegister_servers_cases s env pid ppath with h | ⟨info, h⟩
    · rw [h]
      apply removedKeys_nil_of_all
      intro kv hkv
      exact assocGet_isSome_of_mem s.servers kv hkv
    · rw [h]
      apply removedKeys_nil_of_all
      intro kv hkv
      have hne : kv.1 ≠ pid := by
        intro hh
        have hsome := assocGet_isSome_of_mem s.servers kv hkv
        rw [hh, hpid] at hsome
        simp at hsome
      unfold containsKey
      rw [assocGet_set_other s.servers pid kv.1 info hne]
      exact assocGet_isSome_of_mem s.servers kv hkv
  · intro hok
    obtain ⟨info, h⟩ := startAndRegister_ok_servers s env pid ppath hok
    rw [h]
    rw [length_assocSet_not_mem s.servers pid info
      (by unfold containsKey; rw [hpid]; rfl)]

theorem getServer_full_pool_evicts (s : ManagerState) (env : Env)
    (pid ppath : String)
    (hnodup : (s.servers.map Prod.fst).Nodup)
    (hpid : assocGet s.servers pid = none)
    (k : String) (info : ServerInfo)
    (hget : assocGet s.servers k = some info)
    (hev : evictLRUServer s =
      (.ok (), { s with servers := assocRemove s.servers k })) :
    removedKeys s.servers (getServer s env pid ppath).2.servers = [k] ∧
      (exceptIsOk (getServer s env pid ppath).1 = true →
        (getServer s env pid ppath).2.servers.length = s.servers.length) := by
  have hkmem : (k, info) ∈ s.servers := assocGet_mem _ _ _ hget
  have hkkeys : k ∈ s.servers.map Prod.fst :=
    List.mem_map.mpr ⟨(k, info), hkmem, rfl⟩
  have hkne_pid : k ≠ pid := by
    intro h
    rw [h, hpid] at hget
    exact Option.noConfusion hget
  have hck : containsKey s.servers k = true := by
    unfold containsKey
    rw [hget]
    rfl
  have hcreate := getServer_eq_create s env pid ppath hpid
  have hcs : createServer s env pid ppath =
      startAndRegister { s with servers := assocRemove s.servers k }
        env pid ppath := by
    unfold createServer
    rw [hev]
  rw [hcreate, hcs]
  constructor
  · rcases startAndRegister_servers_cases
        { s with servers := assocRemove s.servers k } env pid ppath with
      h | ⟨info2, h⟩
    · rw [h]
      apply removedKeys_eq_single s.servers _ k hnodup hkkeys
      · unfold containsKey
        rw [assocGet_remove_self s.servers k hnodup]
        rfl
      · intro kv hkv hne
        unfold containsKey
        rw [assocGet_remove_other s.servers k kv.1 hne]
        exact assocGet_isSome_of_mem s.servers kv hkv
    · rw [h]
      apply removedKeys_eq_single s.servers _ k hnodup hkkeys
      · unfold containsKey
        rw [assocGet_set_other _ pid k info2 hkne_pid]
        rw [assocGet_remove_self s.servers k hnodup]
        rfl
      · intro kv hkv hne
        have hnep : kv.1 ≠ pid := by
          intro hh
          have hsome := assocGet_isSome_of_mem s.servers kv hkv
          rw [hh, hpid] at hsome
          simp at hsome
        unfold containsKey
        rw [assocGet_set_other _ pid kv.1 info2 hnep]
        rw [assocGet_remove_other s.servers k kv.1 hne]
        exact assocGet_isSome_of_mem s.servers kv hkv
  · intro hok
    obtain ⟨info2, h⟩ := startAndRegister_ok_servers _ env pid ppath hok
    rw [h]
    have hpid2 : containsKey (assocRemove s.servers k) pid = false := by
      unfold containsKey
      rw [assocGet_remove_other s.servers k pid (Ne.symm hkne_pid), hpid]
      rfl
    rw [length_assocSet_not_mem _ pid info2 hpid2]
    have hrem := length_assocRemove_mem s.servers k hck
    omega

/-- One concrete pool entry used by the boundary witnesses. -/
def sampleServer (pid : String) (la : Nat) : ServerInfo :=
  { server :=
      { projectId := pid
        projectPath := "/tmp/w"
        accessToken := "tok"
        running := true
        lastAccessed := la
        port := 3100 + la
        stopFails := false }
    accessToken := "tok"
    lastAccessed := la }

/-- A concrete ten-project pool (the `MAX_ACTIVE_SERVERS` boundary), with a
`lastAccessed` tie between `s3` and `s5` at 40 so that insertion order must
break the tie. -/
def samplePool : List (String × ServerInfo) :=
  [("s0", sampleServer "s0" 50), ("s1", sampleServer "s1" 41),
   ("s2", sampleServer "s2" 42), ("s3", sampleServer "s3" 40),
   ("s4", sampleServer "s4" 44), ("s5", sampleServer "s5" 40),
   ("s6", sampleServer "s6" 46), ("s7", sampleServer "s7" 47),
   ("s8", sampleServer "s8" 48), ("s9", sampleServer "s9" 49)]

/-- A concrete full manager state built over `samplePool`. -/
def sampleState : ManagerState :=
  { servers := samplePool, portMgr := { allocatedPorts := [], storePorts := [] },
    idleCheckActive := true }

/-- A concrete call environment: port `3333` is the only bindable one, the
entropy is the byte list `0..31`, and neither start nor stop fails. -/
def sampleEnv : Env :=
  { avail := fun p => p == 3333, randomBytes := List.range 32, now := 100,
    startFails := false, stopFails := false }

/-- CLAIM C3: the pool invariant `|pool| ≤ MAX_ACTIVE_SERVERS` holds after
every manager operation (`getServer`, `stopServer`, the idle-reaper scan and
`stopAllServers`); a `getServer` that fills the pool to exactly
`MAX_ACTIVE_SERVERS` evicts nothing (every previously pooled project is
still pooled) and ends at exactly `MAX_ACTIVE_SERVERS` on success, and the
call that would make it `MAX_ACTIVE_SERVERS + 1` evicts exactly one
instance before inserting the new one, again ending at exactly
`MAX_ACTIVE_SERVERS`. The hypotheses are the manager's documented
preconditions: pool within bounds, project ids non-empty (spec section 6
requires ids matching `[A-Za-z0-9_-]+`; the source's `if (lruProjectId)`
truthiness test would skip eviction for an empty-string id) and unique pool
keys (a JavaScript `Map` invariant). -/
theorem pool_bound_invariant
    (s : ManagerState) (env : Env) (pid ppath : String) (now : Nat)
    (hsz : s.servers.length ≤ MAX_ACTIVE_SERVERS)
    (hkeys : ∀ kv ∈ s.servers, kv.1 ≠ "")
    (hnodup : (s.servers.map Prod.fst).Nodup) :
    (getServer s env pid ppath).2.servers.length ≤ MAX_ACTIVE_SERVERS ∧
      (stopServer s pid).2.servers.length ≤ MAX_ACTIVE_SERVERS ∧
      (checkAndCloseIdleServers s now).2.servers.length ≤ MAX_ACTIVE_SERVERS ∧
      (stopAllServers s).2.1.servers.length ≤ MAX_ACTIVE_SERVERS ∧
      (s.servers.length + 1 = MAX_ACTIVE_SERVERS →
        assocGet s.servers pid = none →
        removedKeys s.servers (getServer s env pid ppath).2.servers = [] ∧
          (exceptIsOk (getServer s env pid ppath).1 = true →
            (getServer s env pid ppath).2.servers.length =
              MAX_ACTIVE_SERVERS)) ∧
      (s.servers.length = MAX_ACTIVE_SERVERS →
        assocGet s.servers pid = none →
        exceptIsOk (getServer s env pid ppath).1 = true →
        (removedKeys s.servers
            (getServer s env pid ppath).2.servers).length = 1 ∧
          (getServer s env pid ppath).2.servers.length =
            MAX_ACTIVE_SERVERS) := by
  refine ⟨getServer_length_le s env pid ppath hsz hkeys hnodup,
    le_trans (stopServer_length_le s pid) hsz,
    le_trans (closeLoop_length_le (idleProjects s now) s) hsz,
    le_trans (stopAllServers_servers_length_le s) hsz, ?_, ?_⟩
  · intro h9 hpid
    obtain ⟨ha, hb⟩ := getServer_below_capacity s env pid ppath (by omega) hpid
    refine ⟨ha, fun hok => ?_⟩
    rw [hb hok, h9]
  · intro hfull hpid hok
    obtain ⟨k, info, hchoice, hget, hor⟩ :=
      evictLRU_full_cases s (by omega) hkeys hnodup
    rcases hor with ⟨hf, hev⟩ | ⟨hf, hev⟩
    · have hgc := getServer_eq_create s env pid ppath hpid
      have hce : createServer s env pid ppath = (.error "stop failed", s) := by
        unfold createServer
        rw [hev]
      rw [hgc, hce] at hok
      simp [exceptIsOk] at hok
    · obtain ⟨hrem, hlen⟩ :=
        getServer_full_pool_evicts s env pid ppath hnodup hpid k info hget hev
      rw [hrem]
      refine ⟨rfl, ?_⟩
      rw [hlen hok, hfull]

/-- CLAIM C3 witness: the invariant and boundary conclusions instantiated
at the concrete full pool `sampleState` (ten projects) with the fresh
project id `p`. -/
theorem pool_bound_invariant_witness :
    (getServer sampleState sampleEnv "p" "r").2.servers.length ≤
        MAX_ACTIVE_SERVERS ∧
      (stopServer sampleState "p").2.servers.length ≤ MAX_ACTIVE_SERVERS ∧
      (checkAndCloseIdleServers sampleState 0).2.servers.length ≤
        MAX_ACTIVE_SERVERS ∧
      (stopAllServers sampleState).2.1.servers.length ≤ MAX_ACTIVE_SERVERS ∧
      (sampleState.servers.length + 1 = MAX_ACTIVE_SERVERS →
        assocGet sampleState.servers "p" = none →
        removedKeys sampleState.servers
            (getServer sampleState sampleEnv "p" "r").2.servers = [] ∧
          (exceptIsOk (getServer sampleState sampleEnv "p" "r").1 = true →
            (getServer sampleState sampleEnv "p" "r").2.servers.length =
              MAX_ACTIVE_SERVERS)) ∧
      (sampleState.servers.length = MAX_ACTIVE_SERVERS →
        assocGet sampleState.servers "p" = none →
        exceptIsOk (getServer sampleState sampleEnv "p" "r").1 = true →
        (removedKeys sampleState.servers
            (getServer sampleState sampleEnv "p" "r").2.servers).length = 1 ∧
          (getServer sampleState sampleEnv "p" "r").2.servers.length =
            MAX_ACTIVE_SERVERS) :=
  pool_bound_invariant sampleState sampleEnv "p" "r" 0 (by decide) (by decide)
    (by decide)

/-- CLAIM C4: whenever eviction is triggered — `getServer` on a full pool
with no pooled instance for the requested project, every instance's stop
able to complete — the set of evicted projects is exactly the one named by
the specification's rule (`specLRUChoice`): the instance with the smallest
`lastAccessed`, ties broken by insertion order. -/
theorem evict_chooses_first_min
    (s : ManagerState) (env : Env) (pid ppath : String)
    (hfull : s.servers.length = MAX_ACTIVE_SERVERS)
    (hkeys : ∀ kv ∈ s.servers, kv.1 ≠ "")
    (hnodup : (s.servers.map Prod.fst).Nodup)
    (hpid : assocGet s.servers pid = none)
    (hstops : ∀ kv ∈ s.servers, kv.2.server.stopFails = false) :
    removedKeys s.servers (getServer s env pid ppath).2.servers =
      (specLRUChoice s.servers).toList := by
  obtain ⟨k, info, hchoice, hget, hor⟩ :=
    evictLRU_full_cases s (by omega) hkeys hnodup
  rcases hor with ⟨hf, hev⟩ | ⟨hf, hev⟩
  · have hkf := hstops (k, info) (assocGet_mem _ _ _ hget)
    rw [hkf] at hf
    exact Bool.noConfusion hf
  · obtain ⟨hrem, _⟩ :=
      getServer_full_pool_evicts s env pid ppath hnodup hpid k info hget hev
    rw [hrem, hchoice]
    rfl

/-- CLAIM C4 witness: at the concrete full pool `sampleState`, whose
minimal `lastAccessed` (40) is shared by `s3` and `s5`, the evicted project
is exactly the spec's choice, and that choice is `s3` — the earlier of the
two in insertion order. -/
theorem evict_chooses_first_min_witness :
    removedKeys sampleState.servers
        (getServer sampleState sampleEnv "p" "r").2.servers =
      (specLRUChoice sampleState.servers).toList ∧
      specLRUChoice sampleState.servers = some "s3" :=
  ⟨evict_chooses_first_min sampleState sampleEnv "p" "r" (by decide)
      (by decide) (by decide) (by decide) (by decide),
    by decide⟩

/-- Whether `stopServer` for this project would resolve: the entry is
missing (no-op) or its instance's `stop()` does not reject. -/
def stopWouldSucceed (s : ManagerState) (p : String) : Bool :=
  match assocGet s.servers p with
  | none => true
  | some info => !info.server.stopFails

/-- Whether `stopServer` for this project would reject: the entry is
present and its instance's `stop()` rejects. -/
def stopWouldFail (s : ManagerState) (p : String) : Bool :=
  match assocGet s.servers p with
  | none => false
  | some info => info.server.stopFails

theorem stopWouldSucceed_remove (s : ManagerState) (p q : String)
    (hnodup : (s.servers.map Prod.fst).Nodup)
    (h : stopWouldSucceed s q = true) :
    stopWouldSucceed { s with servers := assocRemove s.servers p } q = true := by
  unfold stopWouldSucceed at h ⊢
  by_cases hqp : q = p
  · rw [hqp]
    rw [assocGet_remove_self s.servers p hnodup]
  · rw [assocGet_remove_other s.servers p q hqp]
    exact h

theorem stopWouldFail_remove (s : ManagerState) (p bad : String)
    (hne : bad ≠ p) (h : stopWouldFail s bad = true) :
    stopWouldFail { s with servers := assocRemove s.servers p } bad = true := by
  unfold stopWouldFail at h ⊢
  rw [assocGet_remove_other s.servers p bad hne]
  exact h

theorem stopWouldFail_containsKey (s : ManagerState) (bad : String)
    (h : stopWouldFail s bad = true) : containsKey s.servers bad = true := by
  unfold stopWouldFail at h
  unfold containsKey
  cases hg : assocGet s.servers bad with
  | none =>
    rw [hg] at h
    exact h
  | some info => rfl

theorem closeLoop_error_at (l1 : List String) :
    ∀ (s : ManagerState) (bad : String) (l2 : List String),
      (s.servers.map Prod.fst).Nodup →
      (∀ p ∈ l1, stopWouldSucceed s p = true) →
      bad ∉ l1 →
      stopWouldFail s bad = true →
      (closeLoop (l1 ++ bad :: l2) s).1 = .error "stop failed" ∧
        (closeLoop (l1 ++ bad :: l2) s).2.servers =
          l1.foldl assocRemove s.servers := by
  induction l1 with
  | nil =>
    intro s bad l2 hnodup hok hbadnot hbad
    unfold stopWouldFail at hbad
    cases hg : assocGet s.servers bad with
    | none =>
      rw [hg] at hbad
      exact Bool.noConfusion hbad
    | some info =>
      rw [hg] at hbad
      have hstop := stopServer_error_of_get s bad info hg hbad
      simp only [List.nil_append, List.foldl_nil]
      constructor
      · unfold closeLoop
        rw [hstop]
      · unfold closeLoop
        rw [hstop]
  | cons p rest ih =>
    intro s bad l2 hnodup hok hbadnot hbad
    simp only [List.cons_append, List.foldl_cons]
    simp only [List.mem_cons, not_or] at hbadnot
    have hbp : bad ≠ p := hbadnot.1
    have hsuc : stopWouldSucceed s p = true :=
      hok p (List.mem_cons_self _ _)
    unfold stopWouldSucceed at hsuc
    cases hg : assocGet s.servers p with
    | none =>
      have hstop : stopServer s p = (.ok (), s) := by
        unfold stopServer
        rw [hg]
      have hrm : assocRemove s.servers p = s.servers :=
        assocRemove_of_get_none _ _ hg
      have hrec := ih s bad l2 hnodup
        (fun q hq => hok q (List.mem_cons_of_mem _ hq)) hbadnot.2 hbad
      rw [hrm]
      constructor
      · unfold closeLoop
        rw [hstop]
        exact hrec.1
      · unfold closeLoop
        rw [hstop]
        exact hrec.2
    | some info =>
      rw [hg] at hsuc
      simp at hsuc
      have hstop := stopServer_ok_of_get s p info hg hsuc
      have hnodup2 : ((assocRemove s.servers p).map Prod.fst).Nodup :=
        nodup_assocRemove _ _ hnodup
      have hrec := ih { s with servers := assocRemove s.servers p } bad l2
        hnodup2
        (fun q hq => stopWouldSucceed_remove s p q hnodup
          (hok q (List.mem_cons_of_mem _ hq)))
        hbadnot.2
        (stopWouldFail_remove s p bad hbp hbad)
      constructor
      · unfold closeLoop
        rw [hstop]
        exact hrec.1
      · unfold closeLoop
        rw [hstop]
        exact hrec.2

/-- A concrete two-project pool for the idle-reaper scan: both projects are
idle past `IDLE_TIMEOUT_MS`, the first one's `stop()` rejects, the second
one's would succeed. -/
def reaperState : ManagerState :=
  { servers :=
      [("p1",
        { server :=
            { projectId := "p1"
              projectPath := "r"
              accessToken := "t"
              running := true
              lastAccessed := 0
              port := 3001
              stopFails := true }
          accessToken := "t"
          lastAccessed := 0 }),
       ("p2",
        { server :=
            { projectId := "p2"
              projectPath := "r"
              accessToken := "t"
              running := true
              lastAccessed := 0
              port := 3002
              stopFails := false }
          accessToken := "t"
          lastAccessed := 0 })]
    portMgr := { allocatedPorts := [], storePorts := [] }
    idleCheckActive := true }

/-- CLAIM C5 counterexample: in `reaperState` both `p1` and `p2` are idle
(`idleProjects` lists both), yet because `p1`'s `stop()` rejects, the scan
result is the propagated rejection — not swallowed — and `p2` (as well as
`p1`) is still in the pool after the scan: the other idle instance was
neither stopped nor removed. -/
theorem idle_reaper_error_escapes :
    idleProjects reaperState 1000000 = ["p1", "p2"] ∧
      (checkAndCloseIdleServers reaperState 1000000).1 =
        .error "stop failed" ∧
      ((checkAndCloseIdleServers reaperState 1000000).2.servers.map
          Prod.fst) = ["p1", "p2"] :=
  ⟨rfl, rfl, rfl⟩

/-- CLAIM C5 (amended): when the idle list is `l1 ++ bad :: l2` with every
stop in `l1` resolving and `bad`'s stop rejecting, the scan rejects with
that error (it propagates out of `checkAndCloseIdleServers`; there is no
try/catch), exactly the idle instances before `bad` have been removed, and
`bad` itself — and with it everything after — is still in the pool. -/
theorem idle_reaper_error_propagates
    (s : ManagerState) (now : Nat) (l1 : List String) (bad : String)
    (l2 : List String)
    (hnodup : (s.servers.map Prod.fst).Nodup)
    (hsplit : idleProjects s now = l1 ++ bad :: l2)
    (hok : ∀ p ∈ l1, stopWouldSucceed s p = true)
    (hbadnot : bad ∉ l1)
    (hbad : stopWouldFail s bad = true) :
    (checkAndCloseIdleServers s now).1 = .error "stop failed" ∧
      (checkAndCloseIdleServers s now).2.servers =
        l1.foldl assocRemove s.servers ∧
      containsKey (checkAndCloseIdleServers s now).2.servers bad = true := by
  have hcore := closeLoop_error_at l1 s bad l2 hnodup hok hbadnot hbad
  have hc : checkAndCloseIdleServers s now = closeLoop (l1 ++ bad :: l2) s := by
    unfold checkAndCloseIdleServers
    rw [hsplit]
  rw [hc]
  refine ⟨hcore.1, hcore.2, ?_⟩
  rw [hcore.2]
  unfold containsKey
  rw [assocGet_foldl_remove_other l1 s.servers bad hbadnot]
  exact stopWouldFail_containsKey s bad hbad

/-- CLAIM C5 (amended) witness: the amended conclusions at the concrete
pool `reaperState`, whose idle list is `[] ++ "p1" :: ["p2"]`. -/
theorem idle_reaper_error_propagates_witness :
    (checkAndCloseIdleServers reaperState 1000000).1 =
        .error "stop failed" ∧
      (checkAndCloseIdleServers reaperState 1000000).2.servers =
        List.foldl assocRemove reaperState.servers [] ∧
      containsKey (checkAndCloseIdleServers reaperState 1000000).2.servers
        "p1" = true :=
  idle_reaper_error_propagates reaperState 1000000 [] "p1" ["p2"]
    (by decide) (by decide) (by decide) (by decide) (by decide)

theorem stopAllGo_cons_ok (pid : String) (rest : List String)
    (s s1 : ManagerState) (hstop : stopServer s pid = (.ok (), s1)) :
    stopAllGo (pid :: rest) s =
      ((stopAllGo rest s1).1, (stopAllGo rest s1).2.1,
        .stopInstance pid :: (stopAllGo rest s1).2.2) := by
  simp only [stopAllGo, hstop]

theorem stopAllGo_all_ok (m : List (String × ServerInfo)) :
    ∀ (pm : PortManager.State) (b : Bool),
      (∀ kv ∈ m, kv.2.server.stopFails = false) →
      stopAllGo (m.map Prod.fst)
          { servers := m, portMgr := pm, idleCheckActive := b } =
        (none, { servers := [], portMgr := pm, idleCheckActive := b },
          m.map (fun kv => Ev.stopInstance kv.1)) := by
  induction m with
  | nil =>
    intro pm b _
    rfl
  | cons kv rest ih =>
    intro pm b hall
    obtain ⟨k, info⟩ := kv
    have hsf : info.server.stopFails = false :=
      hall (k, info) (List.mem_cons_self _ _)
    have hstop : stopServer
        { servers := (k, info) :: rest, portMgr := pm, idleCheckActive := b }
        k =
        (.ok (), { servers := rest, portMgr := pm, idleCheckActive := b }) := by
      unfold stopServer
      simp [assocGet, assocRemove, hsf]
    simp only [List.map_cons]
    rw [stopAllGo_cons_ok k (rest.map Prod.fst) _ _ hstop,
      ih pm b (fun kv2 h2 => hall kv2 (List.mem_cons_of_mem _ h2))]

/-- A concrete one-project pool whose single instance stops cleanly and
whose idle-check interval is installed. -/
def c6State : ManagerState :=
  { servers := [("p1", sampleServer "p1" 0)]
    portMgr := { allocatedPorts := [], storePorts := [] }
    idleCheckActive := true }

/-- CLAIM C6 counterexample: on the concrete pool `c6State` the event trace
of `stopAllServers` is the instance stop followed by the reaper
cancellation — the events before the cancellation are not empty, so the
idle reaper's periodic task is not cancelled before the instance stops
begin; the source clears the interval only after `Promise.all` of the
stops. -/
theorem stopAll_cancel_after_stops :
    (stopAllServers c6State).2.2 =
        [Ev.stopInstance "p1", Ev.cancelReaper] ∧
      stopsBeforeCancel (stopAllServers c6State).2.2 =
        [Ev.stopInstance "p1"] :=
  ⟨rfl, rfl⟩

/-- CLAIM C6 (amended): `stopAllServers` stops every pool instance first
and cancels the idle reaper afterwards — when every stop resolves and the
interval is installed, the call resolves, the pool is empty, the interval
is cleared, and the trace is every instance's stop (in pool order) followed
by the reaper cancellation as the last event; in particular the call does
not return before every instance's stop has completed. -/
theorem stopAll_stops_then_cancels (s : ManagerState)
    (hall : ∀ kv ∈ s.servers, kv.2.server.stopFails = false)
    (hact : s.idleCheckActive = true) :
    (stopAllServers s).1 = .ok () ∧
      (stopAllServers s).2.1.servers = [] ∧
      (stopAllServers s).2.1.idleCheckActive = false ∧
      (stopAllServers s).2.2 =
        (s.servers.map (fun kv => Ev.stopInstance kv.1)) ++
          [Ev.cancelReaper] := by
  cases s with
  | mk m pm b =>
    have hb : b = true := hact
    have hgo := stopAllGo_all_ok m pm b hall
    unfold stopAllServers
    rw [hgo]
    simp [hb]

/-- CLAIM C6 (amended) witness: the amended conclusions at the concrete
pool `c6State`. -/
theorem stopAll_stops_then_cancels_witness :
    (stopAllServers c6State).1 = .ok () ∧
      (stopAllServers c6State).2.1.servers = [] ∧
      (stopAllServers c6State).2.1.idleCheckActive = false ∧
      (stopAllServers c6State).2.2 =
        (c6State.servers.map (fun kv => Ev.stopInstance kv.1)) ++
          [Ev.cancelReaper] :=
  stopAll_stops_then_cancels c6State (by decide) (by decide)

/-- ASCII hexadecimal character test (digit or lowercase `a`–`f`). -/
def isHexChar (c : Char) : Bool :=
  ('0' ≤ c && c ≤ '9') || ('a' ≤ c && c ≤ 'f')

theorem hexChars_length (bs : List Nat) :
    (hexChars bs).length = 2 * bs.length := by
  induction bs with
  | nil => rfl
  | cons b rest ih =>
    simp only [hexChars, List.length_cons, ih]
    omega

theorem toHexDigit_isHex (n : Nat) (h : n < 16) :
    isHexChar (toHexDigit n) = true := by
  interval_cases n <;> decide

theorem hexVal_toHexDigit (n : Nat) (h : n < 16) :
    (if toHexDigit n ≤ '9' then (toHexDigit n).toNat - 48
      else (toHexDigit n).toNat - 87) = n := by
  interval_cases n <;> decide

theorem toHexDigit_inj (a b : Nat) (ha : a < 16) (hb : b < 16)
    (h : toHexDigit a = toHexDigit b) : a = b := by
  have h1 := hexVal_toHexDigit a ha
  rw [h, hexVal_toHexDigit b hb] at h1
  exact h1.symm

theorem hexChars_inj (bs1 : List Nat) :
    ∀ bs2 : List Nat, (∀ x ∈ bs1, x < 256) → (∀ x ∈ bs2, x < 256) →
      hexChars bs1 = hexChars bs2 → bs1 = bs2 := by
  induction bs1 with
  | nil =>
    intro bs2 _ _ h
    cases bs2 with
    | nil => rfl
    | cons b rest => simp [hexChars] at h
  | cons b rest ih =>
    intro bs2 h1 h2 h
    cases bs2 with
    | nil => simp [hexChars] at h
    | cons b2 rest2 =>
      simp only [hexChars, List.cons.injEq] at h
      obtain ⟨hh1, hh2, hh3⟩ := h
      have hb : b < 256 := h1 b (List.mem_cons_self _ _)
      have hb2 : b2 < 256 := h2 b2 (List.mem_cons_self _ _)
      have hd1 : b / 16 = b2 / 16 :=
        toHexDigit_inj _ _ (by omega) (by omega) hh1
      have hd2 : b % 16 = b2 % 16 :=
        toHexDigit_inj _ _ (by omega) (by omega) hh2
      have hbeq : b = b2 := by omega
      rw [hbeq,
        ih rest2 (fun x hx => h1 x (List.mem_cons_of_mem _ hx))
          (fun x hx => h2 x (List.mem_cons_of_mem _ hx)) hh3]

theorem hexChars_all_hex (bs : List Nat) (h : ∀ x ∈ bs, x < 256) :
    (hexChars bs).all isHexChar = true := by
  induction bs with
  | nil => rfl
  | cons b rest ih =>
    have hb : b < 256 := h b (List.mem_cons_self _ _)
    simp only [hexChars, List.all_cons]
    rw [toHexDigit_isHex (b / 16) (by omega),
      toHexDigit_isHex (b % 16) (by omega),
      ih (fun x hx => h x (List.mem_cons_of_mem _ hx))]
    rfl

theorem hexEncode_length (bs : List Nat) :
    (hexEncode bs).length = 2 * bs.length :=
  hexChars_length bs

theorem hexEncode_inj (bs1 bs2 : List Nat)
    (h1 : ∀ x ∈ bs1, x < 256) (h2 : ∀ x ∈ bs2, x < 256)
    (h : hexEncode bs1 = hexEncode bs2) : bs1 = bs2 :=
  hexChars_inj bs1 bs2 h1 h2 (congrArg String.data h)

/-- The access token of a successful `getServer` result (empty string on a
rejection; only used under a success hypothesis). -/
def okToken (r : Except String LocalFileServer) : String :=
  match r with
  | .ok server => server.accessToken
  | .error _ => ""

theorem startAndRegister_ok_token (s1 : ManagerState) (env : Env)
    (pid ppath : String)
    (hok : exceptIsOk (startAndRegister s1 env pid ppath).1 = true) :
    okToken (startAndRegister s1 env pid ppath).1 =
      generateAccessToken env.randomBytes := by
  unfold startAndRegister at hok ⊢
  cases hap : PortManager.allocatePort s1.portMgr env.avail pid with
  | mk pr pm1 =>
    rw [hap] at hok
    cases pr with
    | error e => simp [exceptIsOk] at hok
    | ok port =>
      by_cases hsf : env.startFails = true
      · simp [hsf, exceptIsOk] at hok
      · simp [hsf, okToken]

theorem createServer_ok_token (s : ManagerState) (env : Env)
    (pid ppath : String)
    (hok : exceptIsOk (createServer s env pid ppath).1 = true) :
    okToken (createServer s env pid ppath).1 =
      generateAccessToken env.randomBytes := by
  unfold createServer at hok ⊢
  cases hev : evictLRUServer s with
  | mk r s1 =>
    rw [hev] at hok
    cases r with
    | error e => simp [exceptIsOk] at hok
    | ok u => exact startAndRegister_ok_token s1 env pid ppath hok

/-- CLAIM C7: every server instance the manager creates gets the token
`generateAccessToken` built from the 32 bytes `crypto.randomBytes(32)`
returned — a string of exactly 64 ASCII hexadecimal characters — and after
`stopServer(pid)` a successful `getServer` for the same project carries a
newly generated token: it equals the hex encoding of the call's fresh
entropy bytes, and as long as those differ from the old instance's bytes
the token differs from the old instance's token (hex encoding is injective
on byte lists). -/
theorem stop_then_getServer_fresh_token
    (s : ManagerState) (env : Env) (pid ppath : String)
    (oldInfo : ServerInfo) (oldBytes : List Nat)
    (hnodup : (s.servers.map Prod.fst).Nodup)
    (hold : assocGet s.servers pid = some oldInfo)
    (holdTok : oldInfo.accessToken = hexEncode oldBytes)
    (hstopOk : oldInfo.server.stopFails = false)
    (hlen : env.randomBytes.length = 32)
    (hbytes : ∀ x ∈ env.randomBytes, x < 256)
    (holdBytes : ∀ x ∈ oldBytes, x < 256)
    (hne : env.randomBytes ≠ oldBytes)
    (hok : exceptIsOk (getServer (stopServer s pid).2 env pid ppath).1 =
      true) :
    okToken (getServer (stopServer s pid).2 env pid ppath).1 =
        generateAccessToken env.randomBytes ∧
      (okToken (getServer (stopServer s pid).2 env pid ppath).1).length =
        64 ∧
      ((okToken (getServer (stopServer s pid).2 env pid ppath).1).data.all
          isHexChar) = true ∧
      okToken (getServer (stopServer s pid).2 env pid ppath).1 ≠
        oldInfo.accessToken := by
  have hstop := stopServer_ok_of_get s pid oldInfo hold hstopOk
  have hpid1 : assocGet (stopServer s pid).2.servers pid = none := by
    rw [hstop]
    exact assocGet_remove_self s.servers pid hnodup
  have hgc := getServer_eq_create (stopServer s pid).2 env pid ppath hpid1
  rw [hgc] at hok ⊢
  have htok := createServer_ok_token _ env pid ppath hok
  refine ⟨htok, ?_, ?_, ?_⟩
  · rw [htok]
    unfold generateAccessToken
    rw [hexEncode_length, hlen]
  · rw [htok]
    exact hexChars_all_hex env.randomBytes hbytes
  · rw [htok, holdTok]
    intro heq
    exact hne (hexEncode_inj env.randomBytes oldBytes hbytes holdBytes heq)

/-- The server entry stopped and replaced in the C7 witness scenario: its
token is the hex encoding of 32 zero bytes. -/
def c7Old : ServerInfo :=
  { server :=
      { projectId := "p1"
        projectPath := "r"
        accessToken := hexEncode (List.replicate 32 0)
        running := true
        lastAccessed := 0
        port := 3000
        stopFails := false }
    accessToken := hexEncode (List.replicate 32 0)
    lastAccessed := 0 }

/-- A concrete one-project manager state holding `c7Old`. -/
def c7State : ManagerState :=
  { servers := [("p1", c7Old)]
    portMgr := { allocatedPorts := [], storePorts := [] }
    idleCheckActive := true }

/-- CLAIM C7 witness: at the concrete state `c7State`, stopping `p1` and
recreating it under the entropy `0..31` yields a 64-character all-hex
token equal to the fresh generation and different from the old token. -/
theorem stop_then_getServer_fresh_token_witness :
    okToken (getServer (stopServer c7State "p1").2 sampleEnv "p1" "r").1 =
        generateAccessToken sampleEnv.randomBytes ∧
      (okToken
          (getServer (stopServer c7State "p1").2 sampleEnv "p1" "r").1).length =
        64 ∧
      ((okToken
          (getServer (stopServer c7State "p1").2 sampleEnv "p1" "r").1).data.all
          isHexChar) = true ∧
      okToken (getServer (stopServer c7State "p1").2 sampleEnv "p1" "r").1 ≠
        c7Old.accessToken :=
  stop_then_getServer_fresh_token c7State sampleEnv "p1" "r" c7Old
    (List.replicate 32 0) (by decide) (by decide) rfl (by decide) (by decide)
    (by decide) (by decide) (by decide) (by decide)

/-- Modelled from the spec: the HTTP request shape seen by
`LocalFileServer`'s request handler (spec section 4.2) — method, URL path
(already URL-decoded), and the token presented as a query parameter or as
an `Authorization: Bearer` header. -/
structure HttpRequest where
  method : String
  path : String
  queryToken : Option String
  bearerToken : Option String
  deriving DecidableEq

/-- Response of the request handler together with the list of files it
opened while producing it (the observable needed by the no-read
guarantees). -/
structure HttpResponse where
  status : Nat
  openedFiles : List String
  deriving DecidableEq

/-- Splitting a character list at `/` separators (the structural model of
`path.split('/')`). -/
def splitOnSlashAux : List Char → List Char → List String
  | [], acc => [String.mk acc.reverse]
  | c :: rest, acc =>
    if c = '/' then String.mk acc.reverse :: splitOnSlashAux rest []
    else splitOnSlashAux rest (c :: acc)

/-- The non-empty components of a URL path. -/
def pathComponents (p : String) : List String :=
  (splitOnSlashAux p.data []).filter (fun c => c ≠ "")

/-- Whether a string begins with a dot. -/
def startsWithDot (s : String) : Bool :=
  match s.data with
  | [] => false
  | c :: _ => c = '.'

/-- Whether any component of the URL path begins with a dot. -/
def hasDotComponent (p : String) : Bool :=
  (pathComponents p).any startsWithDot

/-- The token a request presents: the `token` query parameter, else the
bearer header. -/
def presentedToken (req : HttpRequest) : Option String :=
  match req.queryToken with
  | some t => some t
  | none => req.bearerToken

/-- Canonicalization of path components (spec section 4.2, path policy):
`.` is dropped, `..` pops — popping past the root is an escape, reported as
`none`. -/
def resolvePath (cs : List String) : Option (List String) :=
  cs.foldl
    (fun acc c =>
      match acc with
      | none => none
      | some stack =>
        if c = "." then some stack
        else if c = ".." then
          match stack with
          | [] => none
          | _ => some stack.dropLast
        else some (stack ++ [c]))
    (some [])

/-- Modelled from the spec: `LocalFileServer`'s request handler
(src/main/fileServer/LocalFileServer.ts is not among the extracted source
files). Pipeline per spec section 4.2 and the repository's
TEST_VERIFICATION_REPORT (which quotes the file's token middleware at lines
72–88 ahead of the `express.static` registration with `dotfiles: 'deny'`
at lines 193–196): authentication first (`401` with no file read on a
missing or wrong token), then method acceptance (`405` for non-GET/HEAD),
then the dotfile denial and path policy (`403` before any file system
read), then the file lookup (`404` for missing entries and directories,
`200` serving the file). The environment `fs` tells for each absolute path
whether it is absent, a directory (`some true`) or a file (`some false`). -/
def LocalFileServer.handleRequest (server : LocalFileServer)
    (fs : String → Option Bool) (req : HttpRequest) : HttpResponse :=
  match presentedToken req with
  | none => { status := 401, openedFiles := [] }
  | some t =>
    if t == server.accessToken then
      if req.method != "GET" && req.method != "HEAD" then
        { status := 405, openedFiles := [] }
      else if (pathComponents req.path).any startsWithDot then
        { status := 403, openedFiles := [] }
      else
        match resolvePath (pathComponents req.path) with
        | none => { status := 403, openedFiles := [] }
        | some stack =>
          let target := String.intercalate "/" (server.projectPath :: stack)
          match fs target with
          | none => { status := 404, openedFiles := [] }
          | some true => { status := 404, openedFiles := [] }
          | some false => { status := 200, openedFiles := [target] }
    else { status := 401, openedFiles := [] }

/-- A concrete file-server instance serving root `/proj` under the token
`tk`. -/
def c2Server : LocalFileServer :=
  { projectId := "p1"
    projectPath := "/proj"
    accessToken := "tk"
    running := true
    lastAccessed := 0
    port := 3000
    stopFails := false }

/-- CLAIM C2 counterexample: a request for `/.env` — a path with a
component beginning with a dot — that presents no token is answered `401`,
not `403`: authentication runs before the dotfile policy, so the claim's
unconditional `403` for every such request does not hold. (No file is
opened either way.) -/
theorem dotfile_unauthenticated_is_401 :
    hasDotComponent "/.env" = true ∧
      (LocalFileServer.handleRequest c2Server (fun _ => none)
          { method := "GET", path := "/.env", queryToken := none,
            bearerToken := none }).status = 401 ∧
      ¬ (LocalFileServer.handleRequest c2Server (fun _ => none)
          { method := "GET", path := "/.env", queryToken := none,
            bearerToken := none }).status = 403 := by
  refine ⟨by decide, rfl, by decide⟩

/-- CLAIM C2 (amended): for every request whose URL path has a component
beginning with `.`, no file under the project root is opened or read, and
when the request is authenticated (it presents the server's token) and
uses an accepted method (GET or HEAD) the response status is `403`;
an unauthenticated dotfile request is answered `401` instead — still with
no file read. -/
theorem dotfile_request_denied (server : LocalFileServer)
    (fs : String → Option Bool) (req : HttpRequest)
    (hdot : hasDotComponent req.path = true) :
    (LocalFileServer.handleRequest server fs req).openedFiles = [] ∧
      (presentedToken req = some server.accessToken →
        (req.method = "GET" ∨ req.method = "HEAD") →
        (LocalFileServer.handleRequest server fs req).status = 403) := by
  unfold hasDotComponent at hdot
  unfold LocalFileServer.handleRequest
  constructor
  · cases hpt : presentedToken req with
    | none => rfl
    | some t =>
      cases htok : (t == server.accessToken) with
      | false => simp [htok]
      | true =>
        cases hm : (req.method != "GET" && req.method != "HEAD") with
        | true => simp [htok, hm]
        | false => simp [htok, hm, hdot]
  · intro htok hmeth
    rw [htok]
    rcases hmeth with hm | hm <;> simp [hm, hdot]

/-- CLAIM C2 (amended) witness: an authenticated GET for `/.env` against
the concrete server `c2Server` opens no file and is answered `403`. -/
theorem dotfile_request_denied_witness :
    (LocalFileServer.handleRequest c2Server (fun _ => none)
        { method := "GET", path := "/.env", queryToken := some "tk",
          bearerToken := none }).openedFiles = [] ∧
      (presentedToken
            { method := "GET", path := "/.env", queryToken := some "tk",
              bearerToken := none } = some c2Server.accessToken →
        (({ method := "GET", path := "/.env", queryToken := some "tk",
              bearerToken := none } : HttpRequest).method = "GET" ∨
          ({ method := "GET", path := "/.env", queryToken := some "tk",
              bearerToken := none } : HttpRequest).method = "HEAD") →
        (LocalFileServer.handleRequest c2Server (fun _ => none)
            { method := "GET", path := "/.env", queryToken := some "tk",
              bearerToken := none }).status = 403) :=
  dotfile_request_denied c2Server (fun _ => none)
    { method := "GET", path := "/.env", queryToken := some "tk",
      bearerToken := none } (by decide)

/-- A value thrown by JavaScript code: an `Error` object carrying a
message, or any non-`Error` value. -/
inductive Thrown where
  | errorObj (message : String)
  | nonError
  deriving DecidableEq

/-- The `{ success, ..., error }` object an IPC handler returns to the
renderer. -/
structure IpcResponse (α : Type) where
  success : Bool
  payload : Option α
  error : Option String
  deriving DecidableEq

/-- Embeds the `try/catch` wrapper that every handler registered by
`registerFileServerHandlers` uses: the resolved value with
`success: true`; on a throw, `success: false` with the `Error`'s message,
or `Unknown error` when the thrown value is not an `Error` instance. -/
def ipcWrap {α : Type} (outcome : Except Thrown α) : IpcResponse α :=
  match outcome with
  | .ok a => { success := true, payload := some a, error := none }
  | .error (.errorObj m) =>
    { success := false, payload := none, error := some m }
  | .error .nonError =>
    { success := false, payload := none, error := some "Unknown error" }

/-- Modelled from the spec: `LocalFileServer.getUrl` (the class is not
among the extracted sources) builds
`http://127.0.0.1:{port}/{relative path}?token={token}` per spec section
6. -/
def LocalFileServer.getUrl (server : LocalFileServer)
    (filePath : String) : String :=
  "http://127.0.0.1:" ++ toString server.port ++ "/" ++ filePath ++
    "?token=" ++ server.accessToken

/-- Embeds `ProjectServerManager.getFileUrl`: get or start the project's
server, then build the file URL. -/
def getFileUrl (s : ManagerState) (env : Env) (pid ppath fpath : String) :
    Except String String × ManagerState :=
  match getServer s env pid ppath with
  | (.ok server, s1) => (.ok (LocalFileServer.getUrl server fpath), s1)
  | (.error e, s1) => (.error e, s1)

/-- Embeds `ProjectServerManager.getStats`: pool size, the limit, and the
per-project port and last-access data. -/
def getStats (s : ManagerState) : Nat × Nat × List (String × Nat × Nat) :=
  (s.servers.length, MAX_ACTIVE_SERVERS,
    s.servers.map (fun kv => (kv.1, kv.2.server.port, kv.2.server.lastAccessed)))

/-- Embeds the `fileServer:getUrl` IPC handler: `getFileUrl` inside the
try/catch wrapper — the manager model's rejections are `Error` objects
carrying their message. -/
def fileServerGetUrlHandler (s : ManagerState) (env : Env)
    (pid ppath fpath : String) : IpcResponse String × ManagerState :=
  match getFileUrl s env pid ppath fpath with
  | (.ok url, s1) => (ipcWrap (.ok url), s1)
  | (.error m, s1) => (ipcWrap (.error (.errorObj m)), s1)

/-- Embeds the `fileServer:stop` IPC handler. -/
def fileServerStopHandler (s : ManagerState) (pid : String) :
    IpcResponse Unit × ManagerState :=
  match stopServer s pid with
  | (.ok _, s1) => (ipcWrap (.ok ()), s1)
  | (.error m, s1) => (ipcWrap (.error (.errorObj m)), s1)

/-- Embeds the `fileServer:getStats` IPC handler: `getStats` is a pure
read, so the wrapper always resolves. -/
def fileServerGetStatsHandler (s : ManagerState) :
    IpcResponse (Nat × Nat × List (String × Nat × Nat)) :=
  ipcWrap (.ok (getStats s))

/-- CLAIM C10: every IPC handler registered by
`registerFileServerHandlers` is total at its boundary: whatever the inputs
and however the underlying call resolves or throws, the handler returns an
object that either has `success: true` with a payload and no error, or
`success: false` with a string error; a thrown non-`Error` value is mapped
to the string `Unknown error`; no exception crosses the IPC boundary. -/
theorem ipc_handlers_total (s : ManagerState) (env : Env)
    (pid ppath fpath : String) :
    (∀ (α : Type) (o : Except Thrown α),
      ((ipcWrap o).success = true ∧ (ipcWrap o).payload.isSome = true ∧
          (ipcWrap o).error = none) ∨
        ((ipcWrap o).success = false ∧ (ipcWrap o).payload = none ∧
          (ipcWrap o).error.isSome = true)) ∧
      (∀ α : Type, (ipcWrap (α := α) (.error .nonError)).error =
        some "Unknown error") ∧
      (((fileServerGetUrlHandler s env pid ppath fpath).1.success = true ∧
          (fileServerGetUrlHandler s env pid ppath fpath).1.error = none) ∨
        ((fileServerGetUrlHandler s env pid ppath fpath).1.success = false ∧
          ((fileServerGetUrlHandler s env pid ppath
              fpath).1.error).isSome = true)) ∧
      (((fileServerStopHandler s pid).1.success = true ∧
          (fileServerStopHandler s pid).1.error = none) ∨
        ((fileServerStopHandler s pid).1.success = false ∧
          ((fileServerStopHandler s pid).1.error).isSome = true)) ∧
      ((fileServerGetStatsHandler s).success = true ∧
        (fileServerGetStatsHandler s).error = none) := by
  refine ⟨?_, ?_, ?_, ?_, ⟨rfl, rfl⟩⟩
  · intro α o
    cases o with
    | ok a =>
      left
      exact ⟨rfl, rfl, rfl⟩
    | error t =>
      cases t with
      | errorObj m =>
        right
        exact ⟨rfl, rfl, rfl⟩
      | nonError =>
        right
        exact ⟨rfl, rfl, rfl⟩
  · intro α
    rfl
  · unfold fileServerGetUrlHandler
    cases h : getFileUrl s env pid ppath fpath with
    | mk r s1 =>
      cases r with
      | ok url =>
        left
        exact ⟨rfl, rfl⟩
      | error m =>
        right
        exact ⟨rfl, rfl⟩
  · unfold fileServerStopHandler
    cases h : stopServer s pid with
    | mk r s1 =>
      cases r with
      | ok u =>
        left
        exact ⟨rfl, rfl⟩
      | error m =>
        right
        exact ⟨rfl, rfl⟩
